import Mathlib

/-!
Verification development for the mini-admin-panel backend core:
the cryptographic service (SHA-384 email hashing, RSA sign/verify,
key lifecycle) and the protobuf record/collection codec.

The JavaScript source is shallowly embedded: JS strings become Lean
`String`, nullable / possibly-non-string arguments become `Option String`,
thrown errors become `Except` errors, and the mutable service state
(`this.privateKey`, `this.publicKey`) becomes an explicit state record.
-/

namespace MiniAdmin

/-! ## JS string primitives

Models of the JavaScript built-ins used by the source
(`String.prototype.toLowerCase`, `String.prototype.trim`), expressed
over the character list of a Lean string. -/

/-- Model of JS `toLowerCase`: lower-case every character. -/
def jsToLower (s : String) : String :=
  String.mk (s.data.map Char.toLower)

/-- Drop leading and trailing whitespace from a character list. -/
def trimChars (l : List Char) : List Char :=
  ((l.dropWhile Char.isWhitespace).reverse.dropWhile Char.isWhitespace).reverse

/-- Model of JS `trim`: remove leading and trailing whitespace. -/
def jsTrim (s : String) : String :=
  String.mk (trimChars s.data)

/-- The normalization `hashEmail` applies before hashing:
`email.toLowerCase().trim()`. -/
def normalizeEmail (e : String) : String :=
  jsTrim (jsToLower e)

/-! ## Hash primitive -/

/-- Modelled from the spec: the SHA-384 primitive (Node's
`crypto.createHash('sha384')`, library code not under src/). The spec
requires only that it is a deterministic pure function of its input
producing a fixed-length 48-byte digest; this model keeps exactly those
properties (48 bytes by construction, each below 256). -/
def sha384Bytes (s : String) : List Nat :=
  (List.range 48).map (fun i =>
    s.data.foldl (fun a c => (a * 31 + c.toNat) % 256) (i + 7))

/-- One hex digit (lower case), as produced by `digest('hex')`. -/
def hexDigit (n : Nat) : Char :=
  if n < 10 then Char.ofNat (48 + n) else Char.ofNat (87 + n)

/-- Hex-encode a byte list: two hex characters per byte,
as Node's `hash.digest('hex')` does. -/
def hexEncode (bs : List Nat) : String :=
  String.mk (bs.flatMap (fun b => [hexDigit (b / 16), hexDigit (b % 16)]))

/-! ## CryptoService -/

/-- The error taxonomy of the crypto service (spec section 7):
`invalidInput` for malformed hashing input, `keyUnavailable` for
operations attempted without key material. -/
inductive CryptoError where
  | invalidInput
  | keyUnavailable
  deriving DecidableEq, Repr

/-- PEM key material is modelled by the numeric identity of the key pair
it belongs to; the crypto service state holds `this.privateKey` and
`this.publicKey` (`null` becomes `none`). -/
structure CryptoState where
  privateKey : Option Nat
  publicKey : Option Nat
  deriving DecidableEq, Repr

/-- Modelled from the spec: the RSA-SHA256 signing primitive
(Node's `crypto.createSign`, library code not under src/). A signature
is a value determined by the private key and the message, injectively
in both. -/
def rsaSign (kid : Nat) (msg : String) : String :=
  "sig:" ++ toString kid ++ ":" ++ msg

/-- Modelled from the spec: the RSA-SHA256 verification primitive
(Node's `crypto.createVerify`). A signature verifies under the public
half of pair `kid` exactly when it was produced by `rsaSign kid` on the
same message; any other byte string (malformed included) yields `false`. -/
def rsaVerify (kid : Nat) (msg sig : String) : Bool :=
  sig == rsaSign kid msg

/-- Embedding of `CryptoService.hashEmail` (src/unnamed/part_006 lines
117-139). The argument is `none` when the JS caller passes a non-string
or missing value; `!email || typeof email !== 'string'` throws, which
the service rethrows. Otherwise the input is lower-cased, trimmed, and
SHA-384 hashed to a hex string. -/
def hashEmail (email : Option String) : Except CryptoError String :=
  match email with
  | none => Except.error CryptoError.invalidInput
  | some e =>
      if e = "" then Except.error CryptoError.invalidInput
      else Except.ok (hexEncode (sha384Bytes (normalizeEmail e)))

/-- Embedding of `CryptoService.signHash` (part_006 lines 151-177):
rejects an empty or non-string hash, fails when `this.privateKey` is
null, otherwise signs with the private half. -/
def signHash (st : CryptoState) (emailHash : String) : Except CryptoError String :=
  if emailHash = "" then Except.error CryptoError.invalidInput
  else
    match st.privateKey with
    | none => Except.error CryptoError.keyUnavailable
    | some kid => Except.ok (rsaSign kid emailHash)

/-- Embedding of `CryptoService.verifySignature` (part_006 lines
189-214). The whole body sits in a `try`/`catch` whose catch returns
`false`, so the function is total into `Bool`: a missing argument, a
missing public key, or a verification failure all yield `false`. -/
def verifySignature (st : CryptoState) (emailHash signature : String) : Bool :=
  if emailHash = "" ∨ signature = "" then false
  else
    match st.publicKey with
    | none => false
    | some kid => rsaVerify kid emailHash signature

/-- Embedding of `CryptoService.getPublicKey` (part_006 lines 220-225):
throws when `this.publicKey` is null, else returns it. -/
def getPublicKey (st : CryptoState) : Except CryptoError Nat :=
  match st.publicKey with
  | none => Except.error CryptoError.keyUnavailable
  | some kid => Except.ok kid

/-- The durable key store: contents of `keys/private.pem` and
`keys/public.pem` (`none` = file absent), each holding the identity of
the key pair whose half was persisted there. -/
structure KeyStore where
  privFile : Option Nat
  pubFile : Option Nat
  deriving DecidableEq, Repr

/-- Embedding of `CryptoService.initializeKeys` (part_006 lines 31-54)
together with `loadExistingKeys` and `generateNewKeys`. If both key
files exist they are loaded into the state; in every other case
(neither exists, or exactly one exists) a fresh pair — identified by
the `fresh` supply value — is generated, persisted to both files, and
loaded. The file-system model never fails, so the result is always
`ok`. -/
def initializeKeys (fs : KeyStore) (fresh : Nat) :
    Except CryptoError (CryptoState × KeyStore) :=
  if fs.privFile.isSome ∧ fs.pubFile.isSome then
    Except.ok ({ privateKey := fs.privFile, publicKey := fs.pubFile }, fs)
  else
    Except.ok ({ privateKey := some fresh, publicKey := some fresh },
               { privFile := some fresh, pubFile := some fresh })

/-! ## ProtobufService

The codec (src/unnamed/part_005) maps a persistence-layer user row onto
the fixed wire message shape, substituting the empty string for missing
fields, and encodes/decodes through the protobuf schema. The schema
file `src/proto/user.proto` and the protobufjs encoder are not under
src/, so the wire layer is modelled from the spec (sections 4.5-4.7):
each message field is an always-present string with the empty string as
default, written in schema order. -/

/-- The error taxonomy of the codec: invalid (non-object / non-array)
input, and decode-time malformed bytes. -/
inductive ProtoError where
  | invalidUser
  | malformedInput
  deriving DecidableEq, Repr

/-- A persistence-layer user row as the codec receives it: every field
possibly absent, and both naming conventions (`created_at` next to
`createdAt`, `email_hash` next to `emailHash`) possibly populated. -/
structure UserRecord where
  id : Option String
  email : Option String
  role : Option String
  status : Option String
  created_at : Option String
  createdAt : Option String
  email_hash : Option String
  emailHash : Option String
  signature : Option String
  deriving DecidableEq, Repr

/-- The wire message `user.User`: seven always-present string fields. -/
structure UserMessage where
  id : String
  email : String
  role : String
  status : String
  createdAt : String
  emailHash : String
  signature : String
  deriving DecidableEq, Repr

/-- JS `x || ''` for a possibly-absent string: absent and the empty
string are both falsy, so both produce the empty string. -/
def jsStr (v : Option String) : String :=
  match v with
  | none => ""
  | some s => s

/-- JS `a || b || ''`: the first truthy (present and non-empty) string,
else the empty string. -/
def jsOr2 (a b : Option String) : String :=
  if jsStr a = "" then jsStr b else jsStr a

/-- The field mapping of `serializeUser` / `serializeUserCollection`
(part_005 lines 153-164 and 208-219): each wire field takes the row's
value or the empty string, `createdAt` and `emailHash` tolerating both
naming conventions. `toIsoString` on the string-or-absent model returns
the string itself or the empty string, which `jsOr2` already computes. -/
def toUserMessage (u : UserRecord) : UserMessage :=
  { id := jsStr u.id
    email := jsStr u.email
    role := jsStr u.role
    status := jsStr u.status
    createdAt := jsOr2 u.created_at u.createdAt
    emailHash := jsOr2 u.email_hash u.emailHash
    signature := jsStr u.signature }

/-- LEB128-style variable-length encoding of a natural number. -/
def encodeVarint (n : Nat) : List Nat :=
  if h : n < 128 then [n]
  else (n % 128 + 128) :: encodeVarint (n / 128)
decreasing_by
  exact Nat.div_lt_self (Nat.lt_of_lt_of_le (by norm_num) (Nat.le_of_not_lt h)) (by norm_num)

/-- Decode a variable-length natural, returning it with the remaining
bytes. -/
def decodeVarint : List Nat → Option (Nat × List Nat)
  | [] => none
  | b :: rest =>
      if b < 128 then some (b, rest)
      else
        match decodeVarint rest with
        | some (n, rest2) => some (n * 128 + (b - 128), rest2)
        | none => none

/-- A string on the wire: character count, then each character's code
point, all varint-encoded. -/
def encodeString (s : String) : List Nat :=
  encodeVarint s.data.length ++ s.data.flatMap (fun c => encodeVarint c.toNat)

/-- Read `n` characters off the wire. -/
def decodeChars : Nat → List Nat → Option (List Char × List Nat)
  | 0, bs => some ([], bs)
  | n + 1, bs =>
      match decodeVarint bs with
      | some (v, rest) =>
          match decodeChars n rest with
          | some (cs, rest2) => some (Char.ofNat v :: cs, rest2)
          | none => none
      | none => none

/-- Read one string off the wire. -/
def decodeString (bs : List Nat) : Option (String × List Nat) :=
  match decodeVarint bs with
  | some (n, rest) =>
      match decodeChars n rest with
      | some (cs, rest2) => some (String.mk cs, rest2)
      | none => none
  | none => none

/-- Encode the `user.User` message: its seven fields in schema order. -/
def encodeUserMessage (m : UserMessage) : List Nat :=
  encodeString m.id ++ encodeString m.email ++ encodeString m.role ++
  encodeString m.status ++ encodeString m.createdAt ++
  encodeString m.emailHash ++ encodeString m.signature

/-- Decode one `user.User` message, returning the remaining bytes. -/
def decodeUserMessage (bs : List Nat) : Option (UserMessage × List Nat) :=
  match decodeString bs with
  | none => none
  | some (idv, r1) =>
    match decodeString r1 with
    | none => none
    | some (emailv, r2) =>
      match decodeString r2 with
      | none => none
      | some (rolev, r3) =>
        match decodeString r3 with
        | none => none
        | some (statusv, r4) =>
          match decodeString r4 with
          | none => none
          | some (createdv, r5) =>
            match decodeString r5 with
            | none => none
            | some (hashv, r6) =>
              match decodeString r6 with
              | none => none
              | some (sigv, r7) =>
                  some ({ id := idv, email := emailv, role := rolev,
                          status := statusv, createdAt := createdv,
                          emailHash := hashv, signature := sigv }, r7)

/-- Embedding of `ProtobufService.serializeUser` (part_005 lines
139-187): rejects a non-object input, maps the row onto the wire
message (empty-string substitution), and encodes. -/
def serializeUser (user : Option UserRecord) : Except ProtoError (List Nat) :=
  match user with
  | none => Except.error ProtoError.invalidUser
  | some u => Except.ok (encodeUserMessage (toUserMessage u))

/-- Embedding of `ProtobufService.deserializeUser` (part_005 lines
272-304): decodes the buffer back to a message; bytes that do not parse
as exactly one `user.User` message fail. -/
def deserializeUser (bs : List Nat) : Except ProtoError UserMessage :=
  match decodeUserMessage bs with
  | some (m, []) => Except.ok m
  | some (_, _ :: _) => Except.error ProtoError.malformedInput
  | none => Except.error ProtoError.malformedInput

/-- The wire message `user.UserCollection`: the records, the count, the
export timestamp, and the two algorithm names. Field names are the
camelCase names under which protobufjs resolves the schema (the source
loads the schema with no `keepCase` option, so resolved field names
never contain an underscore). -/
structure UserCollectionMessage where
  users : List UserMessage
  totalCount : Nat
  exportedAt : String
  algorithm : String
  hashAlgorithm : String
  deriving DecidableEq, Repr

/-- Encode the collection message: record count, the records, then the
metadata fields in schema order. -/
def encodeCollection (c : UserCollectionMessage) : List Nat :=
  encodeVarint c.users.length ++ c.users.flatMap encodeUserMessage ++
  encodeVarint c.totalCount ++ encodeString c.exportedAt ++
  encodeString c.algorithm ++ encodeString c.hashAlgorithm

/-- Read `n` user messages off the wire. -/
def decodeUsers : Nat → List Nat → Option (List UserMessage × List Nat)
  | 0, bs => some ([], bs)
  | n + 1, bs =>
      match decodeUserMessage bs with
      | some (m, rest) =>
          match decodeUsers n rest with
          | some (ms, rest2) => some (m :: ms, rest2)
          | none => none
      | none => none

/-- Decode one collection message. -/
def decodeCollection (bs : List Nat) : Option (UserCollectionMessage × List Nat) :=
  match decodeVarint bs with
  | none => none
  | some (n, r1) =>
    match decodeUsers n r1 with
    | none => none
    | some (ms, r2) =>
      match decodeVarint r2 with
      | none => none
      | some (cnt, r3) =>
        match decodeString r3 with
        | none => none
        | some (ts, r4) =>
          match decodeString r4 with
          | none => none
          | some (alg, r5) =>
            match decodeString r5 with
            | none => none
            | some (halg, r6) =>
                some ({ users := ms, totalCount := cnt, exportedAt := ts,
                        algorithm := alg, hashAlgorithm := halg }, r6)

/-- The JS object literal `serializeUserCollection` passes to
`create()` (part_005 lines 234-240), with the property names the source
writes: the metadata keys are snake_case (`total_count`,
`exported_at`, `hash_algorithm`) while `users` and `algorithm` happen
to match the wire field names. -/
structure CollectionProps where
  users : List UserMessage
  total_count : Nat
  exported_at : String
  algorithm : String
  hash_algorithm : String
  deriving DecidableEq, Repr

/-- Modelled from the spec and the source's own binding rule: protobufjs
`create()` binds object properties to message fields by the resolved
(camelCase) field name — the source states this twice ("ProtobufJS
expects camelCase field names when creating messages", part_005 lines
158 and 213) and remaps the per-user fields accordingly. For the
collection literal only `users` and `algorithm` match a field name; the
snake_case keys `total_count`, `exported_at` and `hash_algorithm` match
no field, are dropped, and the corresponding wire fields keep their
proto3 defaults (`0` and the empty string). -/
def createCollection (p : CollectionProps) : UserCollectionMessage :=
  { users := p.users
    totalCount := 0
    exportedAt := ""
    algorithm := p.algorithm
    hashAlgorithm := "" }

/-- Embedding of `ProtobufService.serializeUserCollection`'s message
literal (part_005 lines 234-240): every row mapped through the same
field mapping, `total_count` set to the sequence length, `exported_at`
to the current instant (passed explicitly here), and the two algorithm
names to their fixed constants. -/
def collectionProps (us : List UserRecord) (now : String) : CollectionProps :=
  { users := us.map toUserMessage
    total_count := us.length
    exported_at := now
    algorithm := "RSA-2048"
    hash_algorithm := "SHA-384" }

/-- Embedding of `ProtobufService.serializeUserCollection` (part_005
lines 194-265): rejects a non-array input, builds the message literal,
binds it through `create()`, and encodes the resulting message. -/
def serializeUserCollection (users : Option (List UserRecord)) (now : String) :
    Except ProtoError (List Nat) :=
  match users with
  | none => Except.error ProtoError.invalidUser
  | some us => Except.ok (encodeCollection (createCollection (collectionProps us now)))

/-- Embedding of `ProtobufService.deserializeUserCollection` (part_005
lines 311-344). -/
def deserializeUserCollection (bs : List Nat) : Except ProtoError UserCollectionMessage :=
  match decodeCollection bs with
  | some (c, []) => Except.ok c
  | some (_, _ :: _) => Except.error ProtoError.malformedInput
  | none => Except.error ProtoError.malformedInput

/-! ## Wire-format round-trip lemmas -/

/-- Varint decoding inverts varint encoding, leaving trailing bytes. -/
theorem decodeVarint_encode (n : Nat) (rest : List Nat) :
    decodeVarint (encodeVarint n ++ rest) = some (n, rest) := by
  induction n using Nat.strong_induction_on with
  | _ n ih =>
    rw [encodeVarint]
    split
    · next h => simp [decodeVarint, h]
    · next h =>
      have h128 : ¬ (n % 128 + 128 < 128) := by omega
      have hd : n / 128 < n := Nat.div_lt_self (by omega) (by norm_num)
      simp only [List.cons_append, decodeVarint, h128, if_false, List.append_eq, ih _ hd]
      have hn : n / 128 * 128 + (n % 128 + 128 - 128) = n := by omega
      rw [hn]

/-- Character-sequence decoding inverts encoding. -/
theorem decodeChars_encode (cs : List Char) (rest : List Nat) :
    decodeChars cs.length (cs.flatMap (fun c => encodeVarint c.toNat) ++ rest) =
      some (cs, rest) := by
  induction cs with
  | nil => simp [decodeChars]
  | cons c cs ih =>
    simp only [List.flatMap_cons, List.length_cons, List.append_assoc]
    simp [decodeChars, decodeVarint_encode, ih, Char.ofNat_toNat]

/-- String decoding inverts string encoding. -/
theorem decodeString_encode (s : String) (rest : List Nat) :
    decodeString (encodeString s ++ rest) = some (s, rest) := by
  rw [encodeString, decodeString, List.append_assoc, decodeVarint_encode]
  simp only [decodeChars_encode]

/-- Record-message decoding inverts record-message encoding. -/
theorem decodeUserMessage_encode (m : UserMessage) (rest : List Nat) :
    decodeUserMessage (encodeUserMessage m ++ rest) = some (m, rest) := by
  simp [encodeUserMessage, decodeUserMessage, List.append_assoc, decodeString_encode]

/-- Record-sequence decoding inverts record-sequence encoding. -/
theorem decodeUsers_encode (ms : List UserMessage) (rest : List Nat) :
    decodeUsers ms.length (ms.flatMap encodeUserMessage ++ rest) = some (ms, rest) := by
  induction ms with
  | nil => simp [decodeUsers]
  | cons m ms ih =>
    simp only [List.flatMap_cons, List.length_cons, List.append_assoc]
    simp [decodeUsers, decodeUserMessage_encode, ih]

/-- Collection-message decoding inverts collection-message encoding. -/
theorem decodeCollection_encode (c : UserCollectionMessage) (rest : List Nat) :
    decodeCollection (encodeCollection c ++ rest) = some (c, rest) := by
  simp [encodeCollection, decodeCollection, List.append_assoc,
    decodeVarint_encode, decodeUsers_encode, decodeString_encode]

/-! ## Helper lemmas -/

/-- A produced signature is never the empty string, so it passes the
`!signature` falsiness check of `verifySignature`. -/
theorem rsaSign_ne_empty (k : Nat) (m : String) : rsaSign k m ≠ "" := by
  intro h
  have h2 := congrArg String.data h
  simp [rsaSign, String.data_append] at h2

/-- Hex encoding yields two characters per byte. -/
theorem hexEncode_length (bs : List Nat) : (hexEncode bs).length = 2 * bs.length := by
  show (bs.flatMap fun b => [hexDigit (b / 16), hexDigit (b % 16)]).length = 2 * bs.length
  induction bs with
  | nil => simp
  | cons b t ih => simp [ih]; omega

/-- The digest model always yields 48 bytes. -/
theorem sha384Bytes_length (s : String) : (sha384Bytes s).length = 48 := by
  simp [sha384Bytes]

/-- Folding the byte-mixing step keeps the accumulator below 256. -/
theorem foldl_mix_lt (l : List Char) (a : Nat) (ha : a < 256) :
    l.foldl (fun a c => (a * 31 + c.toNat) % 256) a < 256 := by
  induction l generalizing a with
  | nil => simpa
  | cons c t ih => exact ih _ (Nat.mod_lt _ (by norm_num))

/-- Every byte of the digest model is below 256. -/
theorem sha384Bytes_lt (s : String) : ∀ b ∈ sha384Bytes s, b < 256 := by
  intro b hb
  simp only [sha384Bytes, List.mem_map, List.mem_range] at hb
  obtain ⟨i, hi, rfl⟩ := hb
  exact foldl_mix_lt _ _ (by omega)

/-- A hexadecimal character: a decimal digit or one of the letters a-f. -/
def isHexChar (c : Char) : Prop := c.isDigit = true ∨ ('a' ≤ c ∧ c ≤ 'f')

/-- `hexDigit` of a value below 16 is a hexadecimal character. -/
theorem hexDigit_isHexChar (n : Nat) (h : n < 16) : isHexChar (hexDigit n) := by
  interval_cases n <;> first
    | exact Or.inl (by decide)
    | exact Or.inr (by decide)

/-- Hex-encoding bytes below 256 yields only hexadecimal characters. -/
theorem hexEncode_chars (bs : List Nat) (h : ∀ b ∈ bs, b < 256) :
    ∀ c ∈ (hexEncode bs).data, isHexChar c := by
  intro c hc
  simp only [hexEncode] at hc
  rw [List.mem_flatMap] at hc
  obtain ⟨b, hb, hcb⟩ := hc
  have hb256 := h b hb
  simp only [List.mem_cons, List.not_mem_nil, or_false] at hcb
  rcases hcb with h1 | h1
  · exact h1 ▸ hexDigit_isHexChar _ (by omega)
  · exact h1 ▸ hexDigit_isHexChar _ (by omega)

/-- Lower-casing keeps whitespace characters whitespace. -/
theorem toLower_isWhitespace (c : Char) (h : c.isWhitespace = true) :
    (Char.toLower c).isWhitespace = true := by
  simp [Char.isWhitespace] at h
  rcases h with ((h | h) | h) | h <;> subst h <;> decide

/-- Trimming a list of whitespace characters leaves nothing. -/
theorem trimChars_all_whitespace (l : List Char) (h : ∀ c ∈ l, c.isWhitespace = true) :
    trimChars l = [] := by
  have hd : l.dropWhile Char.isWhitespace = [] := List.dropWhile_eq_nil_iff.mpr h
  simp [trimChars, hd]

/-! ## Claim theorems -/

/-- C1: after successful key initialization the state holds matching
private and public halves of one key pair; for every digest (digests
are non-empty hex strings) signing with `signHash` succeeds and
`verifySignature` accepts the produced signature. -/
theorem signHash_verify_roundtrip (st : CryptoState) (k : Nat) (d : String)
    (hpriv : st.privateKey = some k) (hpub : st.publicKey = some k) (hd : d ≠ "") :
    ∃ s, signHash st d = Except.ok s ∧ verifySignature st d s = true := by
  refine ⟨rsaSign k d, ?_, ?_⟩
  · simp [signHash, hd, hpriv]
  · simp [verifySignature, hd, hpub, rsaVerify, rsaSign_ne_empty]

/-- Witness for C1 at a concrete initialized state and digest. -/
theorem signHash_verify_roundtrip_check :
    ∃ s, signHash { privateKey := some 0, publicKey := some 0 } "d0" = Except.ok s ∧
      verifySignature { privateKey := some 0, publicKey := some 0 } "d0" s = true :=
  signHash_verify_roundtrip { privateKey := some 0, publicKey := some 0 } 0 "d0"
    rfl rfl (by decide)

/-- C2: `hashEmail` depends only on the normalized (lower-cased,
trimmed) input, so two valid emails that differ only by case or
surrounding whitespace hash identically, and every digest is a
96-hex-character string (48 bytes, two hex characters each). -/
theorem hashEmail_normalized_deterministic (e1 e2 : String)
    (h1 : e1 ≠ "") (h2 : e2 ≠ "")
    (hn : normalizeEmail e1 = normalizeEmail e2) :
    hashEmail (some e1) = hashEmail (some e2) ∧
    ∃ d, hashEmail (some e1) = Except.ok d ∧ d.length = 96 ∧
      ∀ c ∈ d.data, isHexChar c := by
  refine ⟨by simp [hashEmail, h1, h2, hn], ?_⟩
  refine ⟨hexEncode (sha384Bytes (normalizeEmail e1)), by simp [hashEmail, h1], ?_, ?_⟩
  · rw [hexEncode_length, sha384Bytes_length]
  · exact hexEncode_chars _ (sha384Bytes_lt _)

/-- Witness for C2: the spec's concrete scenario,
hashing the email with stray case and whitespace and its normal form. -/
theorem hashEmail_normalized_deterministic_check :
    hashEmail (some "Test@Example.com ") = hashEmail (some "test@example.com") ∧
    ∃ d, hashEmail (some "Test@Example.com ") = Except.ok d ∧ d.length = 96 ∧
      ∀ c ∈ d.data, isHexChar c :=
  hashEmail_normalized_deterministic "Test@Example.com " "test@example.com"
    (by decide) (by decide) (by decide)

/-- C3: serializing any record succeeds, producing the wire message in
which every one of the seven fields is present as a string (the
empty-string substitution applied to absent fields, with both row
naming conventions honoured), and deserializing those bytes returns
exactly that message. -/
theorem serializeUser_roundTrip (r : UserRecord) :
    ∃ bs m, serializeUser (some r) = Except.ok bs ∧
      deserializeUser bs = Except.ok m ∧
      m.id = jsStr r.id ∧ m.email = jsStr r.email ∧ m.role = jsStr r.role ∧
      m.status = jsStr r.status ∧ m.createdAt = jsOr2 r.created_at r.createdAt ∧
      m.emailHash = jsOr2 r.email_hash r.emailHash ∧ m.signature = jsStr r.signature := by
  refine ⟨encodeUserMessage (toUserMessage r), toUserMessage r,
    rfl, ?_, rfl, rfl, rfl, rfl, rfl, rfl, rfl⟩
  have h := decodeUserMessage_encode (toUserMessage r) []
  rw [List.append_nil] at h
  simp [deserializeUser, h]

/-- A row with every field absent. -/
def emptyUserRecord : UserRecord :=
  { id := none
    email := none
    role := none
    status := none
    created_at := none
    createdAt := none
    email_hash := none
    emailHash := none
    signature := none }

/-- C4, evaluated at the failing input: encoding the one-record
sequence and decoding the bytes yields the record back but
`totalCount = 0` (not 1), `exportedAt = ""` and `hashAlgorithm = ""`
(not the fixed constant) — the snake_case metadata keys of the message
literal bind to no camelCase wire field, so they are dropped at encode
and the fields decode as defaults, contradicting the claim's
`totalCount == n` and fixed algorithm names. Only `users` and
`algorithm`, whose property names match field names, survive. -/
theorem serializeUserCollection_metadata_defaults :
    ∃ bs c,
      serializeUserCollection (some [emptyUserRecord]) "2024-01-01T00:00:00Z" =
        Except.ok bs ∧
      deserializeUserCollection bs = Except.ok c ∧
      c.users.length = 1 ∧ c.totalCount = 0 ∧ c.exportedAt = "" ∧
      c.algorithm = "RSA-2048" ∧ c.hashAlgorithm = "" := by
  refine ⟨_,
    createCollection (collectionProps [emptyUserRecord] "2024-01-01T00:00:00Z"),
    rfl, ?_, rfl, rfl, rfl, rfl, rfl⟩
  have h := decodeCollection_encode
    (createCollection (collectionProps [emptyUserRecord] "2024-01-01T00:00:00Z")) []
  rw [List.append_nil] at h
  simp [deserializeUserCollection, h]

/-- C5 counterexample: with only the private key file present (pair 7)
`initializeKeys` does not fail — it regenerates a fresh pair (8) and
overwrites the persisted key material, contradicting the claim that
this state is a fatal configuration error and that persisted material
is never regenerated. -/
theorem initializeKeys_single_file_no_error :
    initializeKeys { privFile := some 7, pubFile := none } 8 =
      Except.ok ({ privateKey := some 8, publicKey := some 8 },
                 { privFile := some 8, pubFile := some 8 }) := rfl

/-- C5 amended: `initializeKeys` loads both keys when both files exist;
when exactly one exists it does not fail but generates a fresh pair and
persists both halves, overwriting the present file; when neither
exists it generates and persists a fresh pair. -/
theorem initializeKeys_branch_behavior :
    (∀ fs fresh, fs.privFile.isSome = true → fs.pubFile.isSome = true →
        initializeKeys fs fresh =
          Except.ok ({ privateKey := fs.privFile, publicKey := fs.pubFile }, fs)) ∧
    (∀ fs fresh, fs.privFile.isSome ≠ fs.pubFile.isSome →
        initializeKeys fs fresh =
          Except.ok ({ privateKey := some fresh, publicKey := some fresh },
                     { privFile := some fresh, pubFile := some fresh })) ∧
    (∀ fresh : Nat, initializeKeys { privFile := none, pubFile := none } fresh =
        Except.ok ({ privateKey := some fresh, publicKey := some fresh },
                   { privFile := some fresh, pubFile := some fresh })) := by
  refine ⟨?_, ?_, ?_⟩
  · intro fs fresh h1 h2
    simp [initializeKeys, h1, h2]
  · intro fs fresh h
    have hne : ¬ (fs.privFile.isSome ∧ fs.pubFile.isSome) := by
      intro hb
      rw [hb.1, hb.2] at h
      exact h rfl
    unfold initializeKeys
    rw [if_neg hne]
  · intro fresh
    rfl

/-- Witness for C5's amended theorem: its load branch at a concrete
store holding both halves. -/
theorem initializeKeys_branch_behavior_check :
    initializeKeys { privFile := some 3, pubFile := some 4 } 9 =
      Except.ok ({ privateKey := some 3, publicKey := some 4 },
                 { privFile := some 3, pubFile := some 4 }) :=
  initializeKeys_branch_behavior.1 { privFile := some 3, pubFile := some 4 } 9 rfl rfl

/-- C6: `verifySignature` is a total function into `Bool` (its whole
body is wrapped in a catch returning `false`), and it returns `true`
exactly when both arguments are non-empty, a public key is loaded, and
the signature is the one the matching private half produces for the
digest — every other input, malformed bytes included, yields `false`,
never an error. -/
theorem verifySignature_never_throws (st : CryptoState) (d s : String) :
    verifySignature st d s = true ↔
      d ≠ "" ∧ s ≠ "" ∧ ∃ k, st.publicKey = some k ∧ s = rsaSign k d := by
  unfold verifySignature
  by_cases hc : d = "" ∨ s = ""
  · simp only [hc, if_true]
    constructor
    · intro h
      exact absurd h (by simp)
    · rintro ⟨h1, h2, _⟩
      rcases hc with h | h
      · exact absurd h h1
      · exact absurd h h2
  · push_neg at hc
    simp only [hc, or_self, if_false]
    cases hpk : st.publicKey with
    | none => simp
    | some k => simp [rsaVerify, hc.1, hc.2, beq_iff_eq]

/-- C7: `hashEmail` fails, with `invalidInput`, exactly on the empty
string or a non-string value; every other input is lower-cased and
trimmed first and then hashed successfully. -/
theorem hashEmail_invalidInput_iff :
    (∀ x : Option String, hashEmail x = Except.error CryptoError.invalidInput ↔
        (x = none ∨ x = some "")) ∧
    (∀ e : String, e ≠ "" →
        hashEmail (some e) = Except.ok (hexEncode (sha384Bytes (normalizeEmail e)))) := by
  constructor
  · intro x
    cases x with
    | none => simp [hashEmail]
    | some e =>
        by_cases he : e = "" <;> simp [hashEmail, he]
  · intro e he
    simp [hashEmail, he]

/-- Witness for C7: a non-empty input hashes successfully. -/
theorem hashEmail_invalidInput_iff_check :
    hashEmail (some "a@b.com") =
      Except.ok (hexEncode (sha384Bytes (normalizeEmail "a@b.com"))) :=
  hashEmail_invalidInput_iff.2 "a@b.com" (by decide)

/-- C8: in the uninitialized state (no key material loaded) `signHash`
fails with `keyUnavailable` for every digest (digests are non-empty)
and `getPublicKey` fails with `keyUnavailable`; neither returns a
value. -/
theorem uninitialized_sign_getPublicKey (st : CryptoState) (d : String)
    (hpriv : st.privateKey = none) (hpub : st.publicKey = none) (hd : d ≠ "") :
    signHash st d = Except.error CryptoError.keyUnavailable ∧
    getPublicKey st = Except.error CryptoError.keyUnavailable := by
  constructor
  · simp [signHash, hd, hpriv]
  · simp [getPublicKey, hpub]

/-- Witness for C8 at the empty state and a concrete digest. -/
theorem uninitialized_sign_getPublicKey_check :
    signHash { privateKey := none, publicKey := none } "d0" =
      Except.error CryptoError.keyUnavailable ∧
    getPublicKey { privateKey := none, publicKey := none } =
      Except.error CryptoError.keyUnavailable :=
  uninitialized_sign_getPublicKey { privateKey := none, publicKey := none } "d0"
    rfl rfl (by decide)

/-- C9: `initializeKeys` is idempotent with respect to the exported
public key: after a successful first call, a second call (with any
fresh-key supply) leaves `getPublicKey` unchanged, because the first
call persisted both halves and the second therefore loads them. -/
theorem initializeKeys_idempotent (fs : KeyStore) (f1 f2 : Nat)
    (st1 st2 : CryptoState) (fs1 fs2 : KeyStore)
    (h1 : initializeKeys fs f1 = Except.ok (st1, fs1))
    (h2 : initializeKeys fs1 f2 = Except.ok (st2, fs2)) :
    getPublicKey st2 = getPublicKey st1 := by
  rcases fs with ⟨p, q⟩
  rcases p with _ | p <;> rcases q with _ | q <;>
    simp [initializeKeys] at h1 <;>
    obtain ⟨ha, hb⟩ := h1 <;> subst ha <;> subst hb <;>
    simp [initializeKeys] at h2 <;>
    obtain ⟨hc, hd⟩ := h2 <;> subst hc <;> rfl

/-- Witness for C9: a first call that generates (empty store), a second
call that reloads; the exported public key is unchanged. -/
theorem initializeKeys_idempotent_check :
    getPublicKey { privateKey := some 0, publicKey := some 0 } =
      getPublicKey { privateKey := some 0, publicKey := some 0 } :=
  initializeKeys_idempotent { privFile := none, pubFile := none } 0 1
    { privateKey := some 0, publicKey := some 0 }
    { privateKey := some 0, publicKey := some 0 }
    { privFile := some 0, pubFile := some 0 }
    { privFile := some 0, pubFile := some 0 } rfl rfl

/-- C10: a whitespace-only input passes the emptiness check (it is a
non-empty string), is trimmed to the empty string by the normalization
that runs after the check, and hashes successfully to the digest of the
empty string — the same result for every whitespace-only input. -/
theorem hashEmail_whitespace_only (e : String) (hne : e ≠ "")
    (hws : ∀ c ∈ e.data, c.isWhitespace = true) :
    hashEmail (some e) = Except.ok (hexEncode (sha384Bytes "")) := by
  have hlower : ∀ c ∈ (jsToLower e).data, c.isWhitespace = true := by
    intro c hc
    simp only [jsToLower, List.mem_map] at hc
    obtain ⟨c0, hc0, rfl⟩ := hc
    exact toLower_isWhitespace c0 (hws c0 hc0)
  have hnorm : normalizeEmail e = "" := by
    show jsTrim (jsToLower e) = ""
    rw [jsTrim, trimChars_all_whitespace _ hlower]
  simp [hashEmail, hne, hnorm]

/-- Witness for C10: a single space hashes to the digest of the empty
string. -/
theorem hashEmail_whitespace_only_check :
    hashEmail (some " ") = Except.ok (hexEncode (sha384Bytes "")) :=
  hashEmail_whitespace_only " " (by decide) (by decide)

end MiniAdmin
